import Mathlib

/-!
Verification of the table-region detection and markdown-table validation
pipeline of `table_chunker.py` (with its caller `app.py`).

Strings are embedded as `List Char`.  Python string primitives used by the
source (`strip`, `rstrip`, `splitlines`, `split("|")`, `count("|")`,
`startswith("|")`, `strip("|")`, `lower`, `re.sub(r"\s+", " ", ...)`) are
given executable Lean counterparts below, with the full CPython whitespace
and line-boundary character sets.
-/

namespace TableChunker

/-- The Python whitespace characters (`str.strip` with no argument, and
`\s` in a `str` regex): CPython's `Py_UNICODE_ISSPACE`, i.e. `\t`–`\r`,
the C0 separators `\x1c`–`\x1f`, space, `\x85`, no-break space, and the
Unicode space separators. -/
def isSpaceChar (c : Char) : Bool :=
  let n := c.toNat
  (0x09 ≤ n && n ≤ 0x0d) || n = 0x20 || (0x1c ≤ n && n ≤ 0x1f) || n = 0x85 ||
    n = 0xa0 || n = 0x1680 || (0x2000 ≤ n && n ≤ 0x200a) || n = 0x2028 ||
    n = 0x2029 || n = 0x202f || n = 0x205f || n = 0x3000

/-- The characters `str.splitlines` treats as line boundaries: `\n`,
`\v`, `\f`, `\r`, the C0 file/group/record separators `\x1c`–`\x1e`,
`\x85`, and the Unicode line/paragraph separators (`\r\n` is handled as
one boundary by `splitlines` itself). -/
def isBreakChar (c : Char) : Bool :=
  let n := c.toNat
  (0x0a ≤ n && n ≤ 0x0d) || (0x1c ≤ n && n ≤ 0x1e) || n = 0x85 || n = 0x2028 ||
    n = 0x2029

/-- Python `s.lstrip()` on a list of characters. -/
def lstrip (l : List Char) : List Char := l.dropWhile isSpaceChar

/-- Python `s.rstrip()` on a list of characters. -/
def rstrip (l : List Char) : List Char := (l.reverse.dropWhile isSpaceChar).reverse

/-- Python `s.strip()` on a list of characters. -/
def strip (l : List Char) : List Char := lstrip (rstrip l)

/-- Python `s.strip("|")`: remove every leading and trailing pipe. -/
def stripPipes (l : List Char) : List Char :=
  ((l.dropWhile (fun c => c = '|')).reverse.dropWhile (fun c => c = '|')).reverse

/-- Python `s.split(sep)` for a one-character separator: always returns at
least one (possibly empty) field. -/
def splitOnChar (sep : Char) : List Char → List (List Char)
  | [] => [[]]
  | c :: cs =>
    match splitOnChar sep cs with
    | [] => [[]]
    | r :: rs => if c = sep then [] :: r :: rs else (c :: r) :: rs

/-- Python `s.count("|")`: number of pipe characters. -/
def countPipe (l : List Char) : Nat := l.countP (fun c => c = '|')

/-- Python `s.splitlines()`: split at every line-boundary character
(`isBreakChar`), with `\r\n` counting as a single boundary; a trailing
boundary does not produce a final empty line. -/
def splitlines : List Char → List (List Char)
  | [] => []
  | '\r' :: '\n' :: cs => [] :: splitlines cs
  | c :: cs =>
    if isBreakChar c then [] :: splitlines cs
    else
      match splitlines cs with
      | [] => [[c]]
      | l1 :: ls => (c :: l1) :: ls

/-- ASCII lower-casing, the effect of Python `str.lower()` on the ASCII
text this pipeline handles. -/
def toLowerChar (c : Char) : Char :=
  if 'A' ≤ c && c ≤ 'Z' then Char.ofNat (c.toNat + 32) else c

def toLower (l : List Char) : List Char := l.map toLowerChar

/-- Python `needle in haystack` (substring containment). -/
def containsSub (needle : List Char) : List Char → Bool
  | [] => needle.isEmpty
  | c :: cs => needle.isPrefixOf (c :: cs) || containsSub needle cs

/-- Collapse of whitespace runs: `re.sub(r"\s+", " ", s)`.  The flag
records whether the previous character was whitespace. -/
def collapseWsAux : Bool → List Char → List Char
  | _, [] => []
  | prevWs, c :: cs =>
    if isSpaceChar c then
      if prevWs then collapseWsAux true cs else ' ' :: collapseWsAux true cs
    else c :: collapseWsAux false cs

def collapseWs (l : List Char) : List Char := collapseWsAux false l

/-- Python `sep.join(parts)` for list-of-characters strings. -/
def joinSep (sep : List Char) : List (List Char) → List Char
  | [] => []
  | [x] => x
  | x :: xs => x ++ sep ++ joinSep sep xs

/-- A markdown table cell, a Python string. -/
abbrev MdCell := List Char

/-- A markdown table row, `List[str]` in the source. -/
abbrev MdRow := List MdCell

/-- A parsed markdown table, `List[List[str]]` in the source. -/
abbrev MdTable := List MdRow

/-- One field of the header-separator regex
`\s*:?-{2,}:?\s*`: after discarding surrounding whitespace, an optional
colon, a run of at least two dashes, an optional colon. -/
def isDashField (f : List Char) : Bool :=
  let g := strip f
  let g1 := if g.head? = some ':' then g.tail else g
  let g2 := if g1.getLast? = some ':' then g1.dropLast else g1
  2 ≤ g2.length && g2.all (fun c => c = '-')

/-- The separator-line test of `_parse_md_table_block`:
`re.match(r"^\|\s*:?-{2,}:?\s*(\|\s*:?-{2,}:?\s*)+\|?$", ln.strip())`.
A matching line is a leading pipe, then at least two pipe-separated dash
fields, then an optional trailing pipe.  Splitting on `|` therefore yields
an empty first part, then the fields, with one extra empty part when the
trailing pipe is present. -/
def isSeparatorLine (l : List Char) : Bool :=
  match splitOnChar '|' l with
  | [] :: rest =>
    let fields := if rest.getLast? = some [] then rest.dropLast else rest
    2 ≤ fields.length && fields.all isDashField
  | _ => false

/-- `_parse_md_table_block`: drop separator lines, and for every other
line strip it, remove the surrounding pipes, split on pipes and strip
each cell. -/
def parse_md_table_block (block_lines : List (List Char)) : MdTable :=
  block_lines.filterMap (fun ln =>
    if isSeparatorLine (strip ln) then none
    else some ((splitOnChar '|' (stripPipes (strip ln))).map strip))

/-- The table-block membership test of `extract_markdown_tables`:
`ln.strip().startswith("|") and ln.count("|") >= 2`. -/
def qualifiesLine (ln : List Char) : Bool :=
  ((strip ln).head? = some '|') && 2 ≤ countPipe ln

/-- The accumulation loop of `extract_markdown_tables`: qualifying lines
extend the current block; a non-qualifying line flushes a non-empty
current block; a final non-empty block is flushed at end of input. -/
def emtLoop : List (List Char) → List (List Char) → List MdTable → List MdTable
  | [], current, tables =>
    tables ++ (if current.isEmpty then [] else [parse_md_table_block current])
  | ln :: rest, current, tables =>
    if qualifiesLine ln then emtLoop rest (current ++ [ln]) tables
    else
      emtLoop rest []
        (tables ++ (if current.isEmpty then [] else [parse_md_table_block current]))

/-- Whether a row has at least one cell with non-whitespace content:
`any(c.strip() for c in r)`. -/
def rowNonBlank (r : MdRow) : Bool := r.any (fun c => !(strip c).isEmpty)

/-- `extract_markdown_tables`: rstrip every line of the input, group
consecutive qualifying lines into blocks, parse each block, and drop
tables that are empty or entirely blank. -/
def extract_markdown_tables (markdown : List Char) : List MdTable :=
  let lines := (splitlines markdown).map rstrip
  let tables := emtLoop lines [] []
  tables.filter (fun t => !t.isEmpty && t.any rowNonBlank)

/-- `CHEM_HEADER_TOKENS` (a Python set; only `any`-style membership is
used, so the iteration order is irrelevant). -/
def CHEM_HEADER_TOKENS : List (List Char) :=
  ["c %".toList, "cr %".toList, "ni %".toList, "mo %".toList, "mn %".toList,
   "si %".toList, "p %".toList, "n %".toList, "cu %".toList, "co %".toList,
   "ti %".toList]

/-- `MECH_HEADER_TOKENS`. -/
def MECH_HEADER_TOKENS : List (List Char) :=
  ["rp".toList, "rm".toList, "a5".toList, "hb".toList, "re".toList,
   "yield".toList, "tensile".toList]

/-- `normalize_token`: `re.sub(r"\s+", " ", s.strip().lower())`. -/
def normalize_token (s : List Char) : List Char :=
  collapseWs (toLower (strip s))

/-- The normalized header string `" ".join(normalize_token(x) for x in table[0])`
of a table (empty string for an empty table). -/
def headerString (table : MdTable) : List Char :=
  joinSep [' '] ((table.headD []).map normalize_token)

/-- `guess_table_type`. -/
def guess_table_type (table : MdTable) : String :=
  if table.isEmpty then "unknown"
  else
    let header := headerString table
    if CHEM_HEADER_TOKENS.any (fun tok => containsSub tok header) then "chemistry"
    else if MECH_HEADER_TOKENS.any (fun tok => containsSub tok header) then "mechanical"
    else "generic"

/-- The cell counts considered by `stable_column_count`:
`[len(r) for r in table if any(c.strip() for c in r)]`. -/
def cellCounts (table : MdTable) : List Nat :=
  (table.filter rowNonBlank).map List.length

/-- `max(set(counts), key=counts.count)`: a most frequent element of
`counts`.  The Python tie-break depends on set iteration order; the spec
calls it arbitrary but deterministic, and it is modelled here as
first-encountered-wins (no settled claim depends on the tie-break). -/
def modeOf (counts : List Nat) : Nat :=
  match counts with
  | [] => 0
  | c :: cs => cs.foldl (fun best x => if counts.count best < counts.count x then x else best) c

/-- Number of counts within ±1 of the mode:
`sum(1 for c in counts if abs(c - mode) <= 1)`. -/
def countWithinOne (mode : Nat) (counts : List Nat) : Nat :=
  counts.countP (fun c => c ≤ mode + 1 && mode ≤ c + 1)

/-- `stable_column_count`.  The threshold test
`sum(...) / len(counts) >= 0.8` is embedded as the exact comparison
`4 * len(counts) ≤ 5 * within`, which agrees with the source's binary64
evaluation for every list length below 10^15. -/
def stable_column_count (table : MdTable) (min_rows : Nat) : Bool :=
  if table.length < min_rows then true
  else
    let counts := cellCounts table
    if counts.isEmpty then true
    else
      let mode := modeOf counts
      decide (4 * counts.length ≤ 5 * countWithinOne mode counts)

/-- A raster image (numpy array in the source): height, width and a pixel
lookup.  `ImageOps` never mutates, so a pure record is faithful; pixel
values are an opaque `Nat` (channel packing is irrelevant to the claims). -/
structure Image where
  h : Nat
  w : Nat
  data : Nat → Nat → Nat

/-- The four-element bbox list `[x1, y1, x2, y2]` (integers after the
source's `int(x)` conversion), modelled as a four-field record. -/
structure BBox where
  x1 : Int
  y1 : Int
  x2 : Int
  y2 : Int

/-- `crop_with_padding`: pad the box, clamp to the image, and slice.
Numpy slicing with clamped integer bounds yields the window of rows
`[y1p, y2p)` and columns `[x1p, x2p)`, empty when the bounds cross, which
is what `Int.toNat` of the differences gives. -/
def crop_with_padding (img : Image) (bbox : BBox) (pad : Int) : Image :=
  let x1p := max 0 (bbox.x1 - pad)
  let y1p := max 0 (bbox.y1 - pad)
  let x2p := min (img.w : Int) (bbox.x2 + pad)
  let y2p := min (img.h : Int) (bbox.y2 + pad)
  { h := (y2p - y1p).toNat, w := (x2p - x1p).toNat,
    data := fun i j => img.data (y1p.toNat + i) (x1p.toNat + j) }

/-- A positive rational scale factor `num / den`.  The source passes the
float `1.5`; every factor the repository uses is a small dyadic rational,
for which binary64 arithmetic is exact, so a rational models it without
loss. -/
structure Frac where
  num : Int
  den : Nat

/-- `int(n * factor)` for `n ≥ 0` and a non-negative factor: truncation
toward zero, i.e. floor, i.e. integer division by the denominator. -/
def scaleDim (n : Nat) (f : Frac) : Nat := ((n : Int) * f.num).toNat / f.den

/-- The float comparison `upscale_factor > 1.0`. -/
def fracGtOne (f : Frac) : Bool := (f.den : Int) < f.num

/-- `upscale`: `cv2.resize` to `(int(w*factor), int(h*factor))` with cubic
interpolation.  Only the dimensions are modelled; interpolated pixel values
are floating-point output no claim inspects, so `data` is left at a
constant. -/
def upscale (img : Image) (f : Frac) : Image :=
  { h := scaleDim img.h f, w := scaleDim img.w f, data := fun _ _ => 0 }

/-- Opaque PNG serialization of an image (`cv2.imencode` output bytes). -/
structure PngBytes where
  image : Image

/-- Opaque base64 rendering of PNG bytes. -/
structure Base64Crop where
  png : PngBytes

/-- `to_png_bytes`: `cv2.imencode(".png", img)` followed by the `ok`
check.  The external encoder's contract (spec §4.1/§7: it rejects
degenerate zero-area buffers) is modelled as failure exactly on
zero-area images; on failure the source raises
`RuntimeError("Failed to encode crop as PNG.")`. -/
def to_png_bytes (img : Image) : Except String PngBytes :=
  if img.h = 0 || img.w = 0 then Except.error "Failed to encode crop as PNG."
  else Except.ok ⟨img⟩

/-- `image_to_base64`: encode to PNG bytes, then base64; the only failure
is the one propagated from `to_png_bytes`. -/
def image_to_base64 (img : Image) : Except String Base64Crop :=
  (to_png_bytes img).map (fun p => ⟨p⟩)

/-- One raw result of the layout engine: a `type` label and a bbox.  The
engine is an external collaborator; `detect_tables` only reads these two
fields. -/
structure LayoutResult where
  type : List Char
  bbox : BBox

/-- `TableRegion` dataclass. -/
structure TableRegion where
  bbox : BBox
  crop : Image
  crop_base64 : Base64Crop
  index : Nat

/-- The `type` filter of `detect_tables`:
`str(result.get("type", "")).lower() == "table"`. -/
def isTableResult (r : LayoutResult) : Bool := toLower r.type = "table".toList

/-- The crop produced for one detected region: crop with padding, then
upscale when the factor exceeds 1. -/
def regionCrop (img : Image) (factor : Frac) (pad : Int) (r : LayoutResult) : Image :=
  let crop0 := crop_with_padding img r.bbox pad
  if fracGtOne factor then upscale crop0 factor else crop0

/-- The `for i, result in enumerate(results)` loop of `detect_tables`:
`i` counts every raw result (table or not); a `RuntimeError` raised while
encoding a crop propagates and aborts the whole loop, which the `Except`
short-circuit mirrors. -/
def detectLoop (img : Image) (factor : Frac) (pad : Int) :
    Nat → List LayoutResult → Except String (List TableRegion)
  | _, [] => Except.ok []
  | i, r :: rest =>
    if isTableResult r then
      let crop1 := regionCrop img factor pad r
      match image_to_base64 crop1 with
      | Except.error e => Except.error e
      | Except.ok b64 =>
        (detectLoop img factor pad (i + 1) rest).map
          (fun regions =>
            { bbox := r.bbox, crop := crop1, crop_base64 := b64, index := i } :: regions)
    else detectLoop img factor pad (i + 1) rest

/-- `detect_tables`, shallowly embedded over its two external inputs: the
decoded image (`cv2.imdecode`, `none` on decode failure, where the source
raises `ValueError`) and the layout engine's raw result list
(`engine.predict`). -/
def detect_tables (decoded : Option Image) (results : List LayoutResult)
    (factor : Frac) (pad : Int) : Except String (List TableRegion) :=
  match decoded with
  | none => Except.error "Impossible de decoder l image"
  | some img => detectLoop img factor pad 0 results

/-- Whether encoding the crop of one region fails: the (possibly
upscaled) crop has zero area. -/
def regionEncodeFails (img : Image) (factor : Frac) (pad : Int) (r : LayoutResult) : Bool :=
  (regionCrop img factor pad r).h = 0 || (regionCrop img factor pad r).w = 0

/-- Modelled from the spec: `serializeAsMarkdownTableBlock` of the §8
round-trip property, which has no implementation under `src/` — one
pipe-delimited line per row, each cell set between single-space padding
and pipe delimiters. -/
def serialize_row (cells : MdRow) : List Char :=
  '|' :: (joinSep ['|'] (cells.map (fun c => ' ' :: (c ++ [' ']))) ++ ['|'])

/-- Modelled from the spec: a whole table serialized as a single markdown
block, one line per row. -/
def serialize_table (rows : MdTable) : List Char :=
  joinSep ['\n'] (rows.map serialize_row)

/-! Concrete values used to instantiate the theorems below. -/

/-- A 100×100 image with distinct pixel values. -/
def exImg : Image := { h := 100, w := 100, data := fun i j => 100 * i + j }

/-- A layout result labelled `Table` whose bbox lies outside `exImg`, so
its clamped crop has zero area and PNG encoding fails. -/
def exBadResult : LayoutResult :=
  { type := "Table".toList, bbox := { x1 := 200, y1 := 200, x2 := 200, y2 := 200 } }

/-- A layout result whose crop encodes fine. -/
def exGoodResult : LayoutResult :=
  { type := "table".toList, bbox := { x1 := 10, y1 := 10, x2 := 50, y2 := 50 } }

/-- An engine output with one degenerate table region followed by one
good table region. -/
def exResults : List LayoutResult := [exBadResult, exGoodResult]

/-- A row of `n` one-character cells. -/
def xRow (n : Nat) : MdRow := List.replicate n ['x']

/-- A row with a single all-blank cell. -/
def blankRow : MdRow := [[]]

/-- Five non-empty rows with cell counts `[3, 3, 3, 2, 3]`. -/
def tableA : MdTable := [xRow 3, xRow 3, xRow 3, xRow 2, xRow 3]

/-- Five non-empty rows with cell counts `[3, 3, 1, 1, 3]`. -/
def tableB : MdTable := [xRow 3, xRow 3, xRow 1, xRow 1, xRow 3]

/-- Two non-empty rows with cell counts 1 and 3, plus one all-blank row. -/
def c1Table : MdTable := [[['a']], [['b'], ['c'], ['d']], blankRow]

/-- Per-row cell counts `[3, 3, 3, 1, 1]`, the two 1-cell rows blank. -/
def c9TableA : MdTable := [xRow 3, xRow 3, xRow 3, blankRow, blankRow]

/-- Per-row cell counts `[3, 3, 3, 1, 1]`, every row non-blank. -/
def c9TableB : MdTable := [xRow 3, xRow 3, xRow 3, xRow 1, xRow 1]

end TableChunker

section Claims

open TableChunker

/-- C1: the stability check does NOT return true for every table with
fewer than 3 non-empty rows: `c1Table` has exactly two non-empty rows
(plus an all-blank row, so three rows in total) and the check returns
false, because the `len(table) < min_rows` guard counts every row,
blank ones included. -/
theorem claim_C1_counterexample :
    c1Table.countP rowNonBlank = 2 ∧
    c1Table.length = 3 ∧
    stable_column_count c1Table 3 = false := by decide

/-- C1 (amended): `stable_column_count` returns true whenever the table
has fewer than `min_rows` rows in total (blank rows counted); in
particular any table with exactly 2 rows is trivially stable at the
default threshold 3. -/
theorem claim_C1_amended :
    (∀ (t : MdTable) (m : Nat), t.length < m → stable_column_count t m = true) ∧
    (∀ t : MdTable, t.length = 2 → stable_column_count t 3 = true) := by
  constructor
  · intro t m h
    simp [stable_column_count, h]
  · intro t h
    simp [stable_column_count, h]

/-- C1 witness: the amended theorem applied to a concrete 2-row table. -/
theorem claim_C1_witness :
    stable_column_count [[['a']], [['b'], ['c'], ['d']]] 3 = true :=
  claim_C1_amended.1 [[['a']], [['b'], ['c'], ['d']]] 3 (by decide)

/-- C4: `guess_table_type` returns `"unknown"` exactly on empty tables,
and on non-empty tables it returns `"chemistry"` when a chemistry token
occurs in the normalized header string, else `"mechanical"` when a
mechanical token occurs, else `"generic"` — chemistry checked first. -/
theorem claim_C4 (t : MdTable) :
    (guess_table_type t = "unknown" ↔ t = []) ∧
    (t ≠ [] →
      guess_table_type t =
        if CHEM_HEADER_TOKENS.any (fun tok => containsSub tok (headerString t)) then
          "chemistry"
        else if MECH_HEADER_TOKENS.any (fun tok => containsSub tok (headerString t)) then
          "mechanical"
        else "generic") := by
  constructor
  · constructor
    · intro h
      cases t with
      | nil => rfl
      | cons r rs =>
        exfalso
        simp only [guess_table_type, List.isEmpty_cons, Bool.false_eq_true, if_false] at h
        revert h
        split <;> (try split) <;> decide
    · intro h
      subst h
      rfl
  · intro hne
    have hie : t.isEmpty = false := by
      cases t with
      | nil => exact absurd rfl hne
      | cons r rs => rfl
    simp only [guess_table_type, hie, Bool.false_eq_true, if_false]

/-- C4 witness: the classification equation at a concrete generic table. -/
theorem claim_C4_witness :
    guess_table_type [["Name".toList, "Date".toList]] =
      (if CHEM_HEADER_TOKENS.any
          (fun tok => containsSub tok (headerString [["Name".toList, "Date".toList]])) then
        "chemistry"
      else if MECH_HEADER_TOKENS.any
          (fun tok => containsSub tok (headerString [["Name".toList, "Date".toList]])) then
        "mechanical"
      else "generic") :=
  (claim_C4 [["Name".toList, "Date".toList]]).2 (by decide)

/-- C5: for a bbox inside the image and a non-negative pad,
`crop_with_padding` returns exactly the window of columns
`[max 0 (x1-p), min w (x2+p))` and rows `[max 0 (y1-p), min h (y2+p))`:
the clamped coordinates are non-negative, ordered, and within the image;
each output dimension is at most the box dimension plus `2p`; and each
pixel of the crop is the corresponding pixel of the source.  The result
is always an image (a zero-area window yields a zero-sized image, not an
error). -/
theorem claim_C5 (img : Image) (b : BBox) (p : Int)
    (hx1 : 0 ≤ b.x1) (hx12 : b.x1 ≤ b.x2) (hx2 : b.x2 ≤ (img.w : Int))
    (hy1 : 0 ≤ b.y1) (hy12 : b.y1 ≤ b.y2) (hy2 : b.y2 ≤ (img.h : Int))
    (hp : 0 ≤ p) :
    (crop_with_padding img b p).w = (min (img.w : Int) (b.x2 + p) - max 0 (b.x1 - p)).toNat ∧
    (crop_with_padding img b p).h = (min (img.h : Int) (b.y2 + p) - max 0 (b.y1 - p)).toNat ∧
    0 ≤ max 0 (b.x1 - p) ∧
    max 0 (b.x1 - p) ≤ min (img.w : Int) (b.x2 + p) ∧
    min (img.w : Int) (b.x2 + p) ≤ (img.w : Int) ∧
    0 ≤ max 0 (b.y1 - p) ∧
    max 0 (b.y1 - p) ≤ min (img.h : Int) (b.y2 + p) ∧
    min (img.h : Int) (b.y2 + p) ≤ (img.h : Int) ∧
    (crop_with_padding img b p).w ≤ (b.x2 - b.x1).toNat + 2 * p.toNat ∧
    (crop_with_padding img b p).h ≤ (b.y2 - b.y1).toNat + 2 * p.toNat ∧
    ∀ i j, (crop_with_padding img b p).data i j =
      img.data ((max 0 (b.y1 - p)).toNat + i) ((max 0 (b.x1 - p)).toNat + j) := by
  refine ⟨rfl, rfl, ?_, ?_, ?_, ?_, ?_, ?_, ?_, ?_, fun i j => rfl⟩ <;>
    (try simp only [crop_with_padding]) <;> omega

/-- C5 witness: the dimension bound at a concrete crop. -/
theorem claim_C5_witness :
    (crop_with_padding exImg { x1 := 10, y1 := 20, x2 := 30, y2 := 40 } 5).w ≤
      ((30 : Int) - 10).toNat + 2 * ((5 : Int)).toNat := by
  obtain ⟨-, -, -, -, -, -, -, -, hw, -, -⟩ :=
    claim_C5 exImg { x1 := 10, y1 := 20, x2 := 30, y2 := 40 } 5 (by decide) (by decide)
      (by decide) (by decide) (by decide) (by decide) (by decide)
  exact hw

/-- C6: a 5-row table with cell counts `[3,3,3,2,3]` is stable and one
with `[3,3,1,1,3]` is not; in general, past the row threshold and with a
non-empty count list, stability holds iff at least 80% of the counted
rows (`4·n ≤ 5·k` exactly) have a cell count within ±1 of the most
frequent count. -/
theorem claim_C6 :
    stable_column_count tableA 3 = true ∧
    stable_column_count tableB 3 = false ∧
    ∀ t : MdTable, 3 ≤ t.length → cellCounts t ≠ [] →
      (stable_column_count t 3 = true ↔
        4 * (cellCounts t).length ≤
          5 * countWithinOne (modeOf (cellCounts t)) (cellCounts t)) := by
  refine ⟨by decide, by decide, fun t h1 h2 => ?_⟩
  have hlt : ¬(t.length < 3) := by omega
  have he : (cellCounts t).isEmpty = false := by
    cases hh : (cellCounts t).isEmpty
    · rfl
    · exact absurd (List.isEmpty_iff.mp hh) h2
  simp only [stable_column_count, hlt, if_false, he, Bool.false_eq_true,
    decide_eq_true_eq]

/-- C6 witness: the general equivalence applied to `tableA`. -/
theorem claim_C6_witness :
    stable_column_count tableA 3 = true ↔
      4 * (cellCounts tableA).length ≤
        5 * countWithinOne (modeOf (cellCounts tableA)) (cellCounts tableA) :=
  claim_C6.2.2 tableA (by decide) (by decide)

/-- C9: the stability check is NOT a pure function of the per-row cell
counts: `c9TableA` and `c9TableB` have identical cell-count lists
`[3,3,3,1,1]`, yet one is stable and the other is not, because blank
rows are excluded from the counted rows by content, not by count. -/
theorem claim_C9_counterexample :
    c9TableA.map List.length = c9TableB.map List.length ∧
    stable_column_count c9TableA 3 = true ∧
    stable_column_count c9TableB 3 = false := by decide

/-- C9 (amended): classification is deterministic, and the stability
check is a pure function of the total row count together with the list
of cell counts of the rows having at least one non-blank cell. -/
theorem claim_C9_amended :
    (∀ t : MdTable, guess_table_type t = guess_table_type t) ∧
    (∀ (t1 t2 : MdTable) (m : Nat),
      t1.length = t2.length → cellCounts t1 = cellCounts t2 →
      stable_column_count t1 m = stable_column_count t2 m) := by
  refine ⟨fun t => rfl, fun t1 t2 m h1 h2 => ?_⟩
  simp only [stable_column_count, h1, h2]

/-- C9 witness: two distinct tables with equal row counts and equal
counted cell counts get the same stability verdict. -/
theorem claim_C9_witness :
    stable_column_count [[['a']]] 3 = stable_column_count [[['b']]] 3 :=
  claim_C9_amended.2 [[['a']]] [[['b']]] 3 (by decide) (by decide)

/-- C10: a single-column separator line `|---|` is not recognized by the
separator pattern (which needs at least two dash fields), so it is parsed
as a data row with the single cell `---` and shows up as a row of the
output table, while the two-column `|---|---|` is recognized. -/
theorem claim_C10 :
    isSeparatorLine "|---|".toList = false ∧
    parse_md_table_block ["|---|".toList] = [["---".toList]] ∧
    extract_markdown_tables "| a |\n|---|\n| 1 |".toList =
      [[["a".toList], ["---".toList], ["1".toList]]] ∧
    isSeparatorLine "|---|---|".toList = true := by decide

/-- C3: the scenario input parses to exactly one table with rows
`[["a","b"],["1","2"]]` (separator dropped, block closed by the blank
line, prose ignored), and each step of the block-building loop admits a
line iff after trimming it starts with a pipe and the line holds at
least two pipes. -/
theorem claim_C3 :
    extract_markdown_tables "| a | b |\n|---|---|\n| 1 | 2 |\n\ntext\n".toList =
      [[["a".toList, "b".toList], ["1".toList, "2".toList]]] ∧
    ∀ (ln : List Char) (rest current : List (List Char)) (tables : List MdTable),
      emtLoop (ln :: rest) current tables =
        if ((strip ln).head? = some '|') && 2 ≤ countPipe ln then
          emtLoop rest (current ++ [ln]) tables
        else
          emtLoop rest []
            (tables ++ (if current.isEmpty then [] else [parse_md_table_block current])) :=
  ⟨by decide, fun ln rest current tables => rfl⟩

/-- C8: every table returned by `extract_markdown_tables` is non-empty
and has a row with a cell whose stripped content is non-empty. -/
theorem claim_C8 (md : List Char) (t : MdTable) (ht : t ∈ extract_markdown_tables md) :
    t ≠ [] ∧ ∃ r ∈ t, ∃ c ∈ r, strip c ≠ [] := by
  simp only [extract_markdown_tables] at ht
  obtain ⟨-, hp⟩ := List.mem_filter.mp ht
  simp only [Bool.and_eq_true, Bool.not_eq_true', List.any_eq_true] at hp
  obtain ⟨h1, r, hr, h2⟩ := hp
  refine ⟨fun hnil => by simp [hnil] at h1, r, hr, ?_⟩
  simp only [rowNonBlank, List.any_eq_true, Bool.not_eq_true'] at h2
  obtain ⟨c, hc, h3⟩ := h2
  exact ⟨c, hc, fun hsc => by simp [hsc] at h3⟩

/-- C8 witness: the non-blankness guarantee at the table extracted from
a concrete line. -/
theorem claim_C8_witness :
    ([[['a'], ['b']]] : MdTable) ≠ [] ∧
    ∃ r ∈ ([[['a'], ['b']]] : MdTable), ∃ c ∈ r, strip c ≠ [] :=
  claim_C8 "| a | b |".toList [[['a'], ['b']]] (by decide)

/-! Auxiliary lemmas about the string primitives, used for the
serialization round-trip. -/

theorem splitOnChar_ne_nil (sep : Char) (l : List Char) : splitOnChar sep l ≠ [] := by
  cases l with
  | nil => simp [splitOnChar]
  | cons c cs =>
    simp only [splitOnChar]
    cases h : splitOnChar sep cs with
    | nil => simp
    | cons r rs => split <;> (try split) <;> simp

theorem splitOnChar_sepFree (sep : Char) (l : List Char) (h : ∀ c ∈ l, ¬(c = sep)) :
    splitOnChar sep l = [l] := by
  induction l with
  | nil => rfl
  | cons c cs ih =>
    have hc : ¬(c = sep) := h c (List.mem_cons_self c cs)
    have ih2 : splitOnChar sep cs = [cs] :=
      ih (fun x hx => h x (List.mem_cons_of_mem c hx))
    simp only [splitOnChar, ih2]
    rw [if_neg hc]

theorem splitOnChar_append_sep (sep : Char) (p rest : List Char)
    (h : ∀ c ∈ p, ¬(c = sep)) :
    splitOnChar sep (p ++ sep :: rest) = p :: splitOnChar sep rest := by
  induction p with
  | nil =>
    simp only [List.nil_append, splitOnChar]
    cases hs : splitOnChar sep rest with
    | nil => exact absurd hs (splitOnChar_ne_nil sep rest)
    | cons r rs => simp
  | cons c p ih =>
    have hc : ¬(c = sep) := h c (List.mem_cons_self c p)
    have ih2 := ih (fun x hx => h x (List.mem_cons_of_mem c hx))
    rw [List.cons_append]
    show (match splitOnChar sep (p ++ sep :: rest) with
          | [] => [[]]
          | r :: rs => if c = sep then [] :: r :: rs else (c :: r) :: rs) =
        (c :: p) :: splitOnChar sep rest
    rw [ih2]
    show (if c = sep then [] :: p :: splitOnChar sep rest
          else (c :: p) :: splitOnChar sep rest) = (c :: p) :: splitOnChar sep rest
    rw [if_neg hc]

theorem splitOnChar_joinSep (sep : Char) (parts : List (List Char)) (hne : parts ≠ [])
    (h : ∀ part ∈ parts, ∀ c ∈ part, ¬(c = sep)) :
    splitOnChar sep (joinSep [sep] parts) = parts := by
  induction parts with
  | nil => exact absurd rfl hne
  | cons p ps ih =>
    cases ps with
    | nil =>
      simp only [joinSep]
      exact splitOnChar_sepFree sep p (h p (List.mem_cons_self p []))
    | cons q qs =>
      have hj : joinSep [sep] (p :: q :: qs) = p ++ sep :: joinSep [sep] (q :: qs) := by
        simp [joinSep]
      rw [hj, splitOnChar_append_sep sep p _ (h p (List.mem_cons_self p (q :: qs))),
        ih (by simp) (fun part hp => h part (List.mem_cons_of_mem p hp))]

theorem lstrip_cons_space (x : List Char) : lstrip (' ' :: x) = lstrip x := rfl

theorem lstrip_cons_nonspace (c : Char) (x : List Char) (h : isSpaceChar c = false) :
    lstrip (c :: x) = c :: x := by
  simp [lstrip, List.dropWhile_cons, h]

theorem rstrip_append_space (x : List Char) : rstrip (x ++ [' ']) = rstrip x := by
  have h1 : (x ++ [' ']).reverse = ' ' :: x.reverse := by simp
  rw [rstrip, h1, List.dropWhile_cons, if_pos (by rfl), rstrip]

theorem rstrip_append_nonspace (x : List Char) (c : Char) (h : isSpaceChar c = false) :
    rstrip (x ++ [c]) = x ++ [c] := by
  have h1 : (x ++ [c]).reverse = c :: x.reverse := by simp
  rw [rstrip, h1, List.dropWhile_cons, if_neg (by simp [h])]
  simp

theorem strip_cons_space (x : List Char) : strip (' ' :: x) = strip x := by
  unfold strip rstrip
  have h1 : (' ' :: x).reverse = x.reverse ++ [' '] := by simp
  rw [h1, List.dropWhile_append]
  cases he : (List.dropWhile isSpaceChar x.reverse).isEmpty with
  | true =>
    have h0 : List.dropWhile isSpaceChar x.reverse = [] := List.isEmpty_iff.mp he
    simp [he, h0, show isSpaceChar ' ' = true from rfl]
  | false =>
    rw [if_neg (by simp [he]), List.reverse_append]
    simp only [List.reverse_cons, List.reverse_nil, List.nil_append, List.singleton_append]
    exact lstrip_cons_space _

theorem strip_append_space (x : List Char) : strip (x ++ [' ']) = strip x := by
  unfold strip
  rw [rstrip_append_space]

theorem strip_pad (c : List Char) : strip (' ' :: (c ++ [' '])) = strip c := by
  rw [strip_cons_space (c ++ [' ']), strip_append_space]

theorem serialize_row_flat (cells : MdRow) :
    serialize_row cells =
      ('|' :: joinSep ['|'] (cells.map (fun c => ' ' :: (c ++ [' '])))) ++ ['|'] := by
  simp [serialize_row]

theorem serialize_row_ne_nil (cells : MdRow) : serialize_row cells ≠ [] := by
  simp [serialize_row]

theorem strip_serialize_row (cells : MdRow) :
    strip (serialize_row cells) = serialize_row cells := by
  rw [serialize_row_flat]
  unfold strip
  rw [rstrip_append_nonspace _ '|' rfl, List.cons_append,
    lstrip_cons_nonspace '|' _ rfl, ← List.cons_append]

theorem rstrip_serialize_row (cells : MdRow) :
    rstrip (serialize_row cells) = serialize_row cells := by
  rw [serialize_row_flat, rstrip_append_nonspace _ '|' rfl]

theorem joinSep_pads_shape (cells : MdRow) (hne : cells ≠ []) :
    ∃ y : List Char,
      joinSep ['|'] (cells.map (fun c => ' ' :: (c ++ [' ']))) = ' ' :: (y ++ [' ']) := by
  induction cells with
  | nil => exact absurd rfl hne
  | cons c cs ih =>
    cases cs with
    | nil => exact ⟨c, by simp [joinSep]⟩
    | cons d ds =>
      obtain ⟨y, hy⟩ := ih (by simp)
      refine ⟨c ++ [' '] ++ '|' :: ' ' :: y, ?_⟩
      simp only [List.map_cons] at hy ⊢
      simp only [joinSep, hy]
      simp [List.append_assoc]

theorem stripPipes_space_wrap (y : List Char) :
    stripPipes ('|' :: ((' ' :: (y ++ [' '])) ++ ['|'])) = ' ' :: (y ++ [' ']) := by
  have h1 : List.dropWhile (fun c => c = '|') ('|' :: ((' ' :: (y ++ [' '])) ++ ['|'])) =
      (' ' :: (y ++ [' '])) ++ ['|'] := by
    rw [List.dropWhile_cons, if_pos (by rfl), List.cons_append, List.dropWhile_cons,
      if_neg (by decide)]
  have h3 : (' ' :: (y ++ [' '])).reverse = ' ' :: (y.reverse ++ [' ']) := by simp
  have h2 : ((' ' :: (y ++ [' '])) ++ ['|']).reverse = '|' :: (' ' :: (y.reverse ++ [' '])) := by
    rw [List.reverse_append, h3]
    rfl
  unfold stripPipes
  rw [h1, h2, List.dropWhile_cons, if_pos (by rfl), List.dropWhile_cons, if_neg (by decide),
    ← h3, List.reverse_reverse]

theorem parse_line_serialize (cells : MdRow) (hne : cells ≠ [])
    (hpipe : ∀ c ∈ cells, ∀ ch ∈ c, ¬(ch = '|'))
    (htrim : ∀ c ∈ cells, strip c = c) :
    (splitOnChar '|' (stripPipes (serialize_row cells))).map strip = cells := by
  have hpipes : ∀ part ∈ cells.map (fun c => ' ' :: (c ++ [' '])), ∀ ch ∈ part, ¬(ch = '|') := by
    intro part hp ch hch
    obtain ⟨c, hc, rfl⟩ := List.mem_map.mp hp
    rcases List.mem_cons.mp hch with rfl | hch2
    · decide
    · rcases List.mem_append.mp hch2 with hin | hsp
      · exact hpipe c hc ch hin
      · simp only [List.mem_singleton] at hsp
        subst hsp
        decide
  obtain ⟨y, hy⟩ := joinSep_pads_shape cells hne
  unfold serialize_row
  rw [hy, stripPipes_space_wrap, ← hy,
    splitOnChar_joinSep '|' _ (by simpa using hne) hpipes, List.map_map]
  have hid : ∀ c ∈ cells, (strip ∘ fun x => ' ' :: (x ++ [' '])) c = id c := by
    intro c hc
    simp only [Function.comp_apply, id_eq]
    rw [strip_pad]
    exact htrim c hc
  rw [List.map_congr_left hid, List.map_id]

theorem countPipe_append (a b : List Char) : countPipe (a ++ b) = countPipe a + countPipe b :=
  List.countP_append _ _ _

theorem countPipe_pad (c : List Char) (h : ∀ ch ∈ c, ¬(ch = '|')) :
    countPipe (' ' :: (c ++ [' '])) = 0 := by
  have h0 : countPipe c = 0 := by
    rw [countPipe, List.countP_eq_zero]
    intro a ha
    simp only [decide_eq_true_eq]
    exact h a ha
  simp only [countPipe, List.countP_cons, List.countP_append] at h0 ⊢
  simp [h0]

theorem countPipe_joinSep_pads (cells : MdRow) (h : ∀ c ∈ cells, ∀ ch ∈ c, ¬(ch = '|')) :
    countPipe (joinSep ['|'] (cells.map (fun c => ' ' :: (c ++ [' '])))) = cells.length - 1 := by
  induction cells with
  | nil => rfl
  | cons c cs ih =>
    cases cs with
    | nil =>
      simp only [List.map_cons, List.map_nil, joinSep]
      rw [countPipe_pad c (h c (List.mem_cons_self c []))]
      simp
    | cons d ds =>
      have ih2 := ih (fun x hx => h x (List.mem_cons_of_mem c hx))
      simp only [List.map_cons, joinSep] at ih2 ⊢
      rw [countPipe_append, countPipe_append,
        countPipe_pad c (h c (List.mem_cons_self c (d :: ds))), ih2]
      simp only [List.length_cons]
      have : countPipe ['|'] = 1 := rfl
      omega

theorem countPipe_serialize_row (cells : MdRow) (hne : cells ≠ [])
    (h : ∀ c ∈ cells, ∀ ch ∈ c, ¬(ch = '|')) :
    countPipe (serialize_row cells) = cells.length + 1 := by
  have e1 : countPipe (serialize_row cells) =
      countPipe (joinSep ['|'] (cells.map (fun c => ' ' :: (c ++ [' '])))) + 2 := by
    rw [serialize_row_flat, countPipe_append]
    have : countPipe ('|' :: joinSep ['|'] (cells.map (fun c => ' ' :: (c ++ [' '])))) =
        countPipe (joinSep ['|'] (cells.map (fun c => ' ' :: (c ++ [' '])))) + 1 := by
      simp [countPipe, List.countP_cons]
    have h2 : countPipe ['|'] = 1 := rfl
    rw [this, h2]
  rw [e1, countPipe_joinSep_pads cells h]
  have := List.length_pos.mpr hne
  omega

theorem qualifies_serialize_row (cells : MdRow) (hne : cells ≠ [])
    (h : ∀ c ∈ cells, ∀ ch ∈ c, ¬(ch = '|')) :
    qualifiesLine (serialize_row cells) = true := by
  unfold qualifiesLine
  rw [strip_serialize_row, countPipe_serialize_row cells hne h]
  have hlen := List.length_pos.mpr hne
  simp only [Bool.and_eq_true, decide_eq_true_eq]
  refine ⟨?_, by omega⟩
  rw [serialize_row]
  exact List.head?_cons

theorem mem_joinSep (sep : List Char) (parts : List (List Char)) (c : Char)
    (h : c ∈ joinSep sep parts) : c ∈ sep ∨ ∃ p ∈ parts, c ∈ p := by
  induction parts with
  | nil => simp [joinSep] at h
  | cons p ps ih =>
    cases ps with
    | nil =>
      simp only [joinSep] at h
      exact Or.inr ⟨p, List.mem_cons_self p [], h⟩
    | cons q qs =>
      simp only [joinSep] at h
      rcases List.mem_append.mp h with h1 | h2
      · rcases List.mem_append.mp h1 with hp | hs
        · exact Or.inr ⟨p, List.mem_cons_self p (q :: qs), hp⟩
        · exact Or.inl hs
      · rcases ih h2 with hs | ⟨r, hr, hcr⟩
        · exact Or.inl hs
        · exact Or.inr ⟨r, List.mem_cons_of_mem p hr, hcr⟩

theorem serialize_row_no_break (cells : MdRow)
    (h : ∀ c ∈ cells, ∀ ch ∈ c, isBreakChar ch = false) :
    ∀ ch ∈ serialize_row cells, isBreakChar ch = false := by
  intro ch hch
  rw [serialize_row] at hch
  rcases List.mem_cons.mp hch with rfl | hch2
  · rfl
  · rcases List.mem_append.mp hch2 with hj | hp
    · rcases mem_joinSep ['|'] _ ch hj with hs | ⟨p, hp2, hcp⟩
      · simp only [List.mem_singleton] at hs
        subst hs
        rfl
      · obtain ⟨c, hc, rfl⟩ := List.mem_map.mp hp2
        rcases List.mem_cons.mp hcp with rfl | hcc
        · rfl
        · rcases List.mem_append.mp hcc with hin | hsp
          · exact h c hc ch hin
          · simp only [List.mem_singleton] at hsp
            subst hsp
            rfl
    · simp only [List.mem_singleton] at hp
      subst hp
      rfl

theorem splitlines_cons_nonbreak (c : Char) (cs : List Char)
    (h : isBreakChar c = false) :
    splitlines (c :: cs) =
      match splitlines cs with
      | [] => [[c]]
      | l1 :: ls => (c :: l1) :: ls := by
  have hr : ¬(c = '\r') := fun e => by subst e; exact absurd h (by decide)
  rw [splitlines.eq_def]
  split <;> simp_all

theorem splitlines_newline (cs : List Char) : splitlines ('\n' :: cs) = [] :: splitlines cs :=
  rfl

theorem splitlines_append_line (l rest : List Char) (h : ∀ c ∈ l, isBreakChar c = false) :
    splitlines (l ++ '\n' :: rest) = l :: splitlines rest := by
  induction l with
  | nil => rw [List.nil_append, splitlines_newline]
  | cons c l ih =>
    have hb := h c (List.mem_cons_self c l)
    rw [List.cons_append, splitlines_cons_nonbreak c _ hb,
      ih (fun x hx => h x (List.mem_cons_of_mem c hx))]

theorem splitlines_single (l : List Char) (hne : l ≠ [])
    (h : ∀ c ∈ l, isBreakChar c = false) : splitlines l = [l] := by
  induction l with
  | nil => exact absurd rfl hne
  | cons c l ih =>
    have hb := h c (List.mem_cons_self c l)
    rw [splitlines_cons_nonbreak c l hb]
    cases l with
    | nil => rfl
    | cons d ds =>
      rw [ih (by simp) (fun x hx => h x (List.mem_cons_of_mem c hx))]

theorem splitlines_joinSep (lines : List (List Char)) (hne : lines ≠ [])
    (hl : ∀ l ∈ lines, l ≠ [] ∧ ∀ c ∈ l, isBreakChar c = false) :
    splitlines (joinSep ['\n'] lines) = lines := by
  induction lines with
  | nil => exact absurd rfl hne
  | cons l ls ih =>
    cases ls with
    | nil =>
      simp only [joinSep]
      exact splitlines_single l (hl l (List.mem_cons_self l [])).1
        (hl l (List.mem_cons_self l [])).2
    | cons m ms =>
      have hj : joinSep ['\n'] (l :: m :: ms) = l ++ '\n' :: joinSep ['\n'] (m :: ms) := by
        simp [joinSep]
      rw [hj, splitlines_append_line l _ (hl l (List.mem_cons_self l (m :: ms))).2,
        ih (by simp) (fun x hx => hl x (List.mem_cons_of_mem l hx))]

theorem emtLoop_all_qualifying (lines : List (List Char)) :
    ∀ current tables, (∀ ln ∈ lines, qualifiesLine ln = true) →
      emtLoop lines current tables =
        tables ++
          (if (current ++ lines).isEmpty then []
           else [parse_md_table_block (current ++ lines)]) := by
  induction lines with
  | nil =>
    intro current tables h
    simp [emtLoop]
  | cons ln rest ih =>
    intro current tables h
    have hq := h ln (List.mem_cons_self ln rest)
    simp only [emtLoop]
    rw [if_pos hq, ih (current ++ [ln]) tables (fun x hx => h x (List.mem_cons_of_mem ln hx))]
    simp [List.append_assoc]

theorem parse_md_table_block_serialize (rows : MdTable)
    (hrow : ∀ r ∈ rows, r ≠ [])
    (hpipe : ∀ r ∈ rows, ∀ c ∈ r, ∀ ch ∈ c, ¬(ch = '|'))
    (htrim : ∀ r ∈ rows, ∀ c ∈ r, strip c = c)
    (hsep : ∀ r ∈ rows, isSeparatorLine (serialize_row r) = false) :
    parse_md_table_block (rows.map serialize_row) = rows := by
  induction rows with
  | nil => rfl
  | cons r rs ih =>
    have ih2 := ih (fun x hx => hrow x (List.mem_cons_of_mem r hx))
      (fun x hx => hpipe x (List.mem_cons_of_mem r hx))
      (fun x hx => htrim x (List.mem_cons_of_mem r hx))
      (fun x hx => hsep x (List.mem_cons_of_mem r hx))
    simp only [List.map_cons, parse_md_table_block, List.filterMap_cons] at ih2 ⊢
    rw [strip_serialize_row, hsep r (List.mem_cons_self r rs), if_neg (by simp)]
    rw [parse_line_serialize r (hrow r (List.mem_cons_self r rs))
      (hpipe r (List.mem_cons_self r rs)) (htrim r (List.mem_cons_self r rs)), ih2]

/-- If some result in the list is typed `table` and its crop fails to
encode, the whole detection loop returns an error, whatever the starting
index. -/
theorem detectLoop_error_of_mem (img : Image) (factor : Frac) (pad : Int)
    (r : LayoutResult) (htab : isTableResult r = true)
    (hfail : regionEncodeFails img factor pad r = true) :
    ∀ l : List LayoutResult, r ∈ l → ∀ i,
      ∃ e, detectLoop img factor pad i l = Except.error e := by
  intro l
  induction l with
  | nil => intro hr; cases hr
  | cons a rest ih =>
    intro hr i
    rcases List.mem_cons.mp hr with rfl | hmem
    · refine ⟨"Failed to encode crop as PNG.", ?_⟩
      have henc : image_to_base64 (regionCrop img factor pad r) =
          Except.error "Failed to encode crop as PNG." := by
        simp only [regionEncodeFails] at hfail
        simp only [image_to_base64, to_png_bytes]
        rw [if_pos hfail]
        rfl
      simp [detectLoop, htab, henc]
    · obtain ⟨e, he⟩ := ih hmem (i + 1)
      by_cases hta : isTableResult a = true
      · cases henc : image_to_base64 (regionCrop img factor pad a) with
        | error e2 => exact ⟨e2, by simp [detectLoop, hta, henc]⟩
        | ok b => exact ⟨e, by simp [detectLoop, hta, henc, he, Except.map]⟩
      · exact ⟨e, by simp [detectLoop, hta, he]⟩

/-- C2: an encoding failure does NOT merely skip its region:
`exResults` holds a degenerate table region followed by a perfectly good
one, the good one alone is detected (index 0 of its own call), yet the
combined call returns the encoding error and no `TableRegion` at all. -/
theorem claim_C2_counterexample :
    detect_tables (some exImg) exResults { num := 3, den := 2 } 30 =
      Except.error "Failed to encode crop as PNG." ∧
    (detect_tables (some exImg) [exGoodResult] { num := 3, den := 2 } 30).map
      (List.map TableRegion.index) = Except.ok [0] :=
  ⟨rfl, rfl⟩

/-- C2 (amended): if any detected table region's crop fails to encode,
the exception propagates and the whole `detect_tables` call aborts with
an error — no regions are returned, and the caller falls back to
whole-image OCR. -/
theorem claim_C2_amended (img : Image) (results : List LayoutResult)
    (factor : Frac) (pad : Int)
    (h : ∃ r ∈ results, isTableResult r = true ∧ regionEncodeFails img factor pad r = true) :
    ∃ e, detect_tables (some img) results factor pad = Except.error e := by
  obtain ⟨r, hr, htab, hfail⟩ := h
  obtain ⟨e, he⟩ := detectLoop_error_of_mem img factor pad r htab hfail results hr 0
  exact ⟨e, by simp [detect_tables, he]⟩

/-- C2 witness: the amended theorem at the concrete failing input. -/
theorem claim_C2_witness :
    ∃ e, detect_tables (some exImg) exResults { num := 3, den := 2 } 30 = Except.error e :=
  claim_C2_amended exImg exResults { num := 3, den := 2 } 30
    ⟨exBadResult, List.mem_cons_self exBadResult [exGoodResult], by decide, by decide⟩

/-- C7: the round-trip fails for some rectangular non-empty pipe-free
inputs: a row of dash-only cells serializes to a line the parser drops as
a header separator; an all-blank table is removed by the post-filter; a
cell with leading whitespace comes back trimmed. -/
theorem claim_C7_counterexample :
    extract_markdown_tables (serialize_table [["---".toList, "---".toList]]) ≠
      [[["---".toList, "---".toList]]] ∧
    extract_markdown_tables (serialize_table [[([] : List Char)]]) ≠
      [[[([] : List Char)]]] ∧
    extract_markdown_tables (serialize_table [[" a".toList]]) ≠ [[[" a".toList]]] := by
  decide

/-- C7 (amended): the round-trip `parse (serialize rows) = [rows]` holds
for every rectangular non-empty table whose rows are non-empty, whose
cells are trimmed and contain no pipe and no line-break characters, with
at least one non-empty cell, and no row serializing to a line matching
the header-separator pattern. -/
theorem claim_C7_amended (rows : MdTable)
    (hne : rows ≠ [])
    (hrowne : ∀ r ∈ rows, r ≠ [])
    (hrect : ∀ r ∈ rows, r.length = (rows.headD []).length)
    (hcell : ∀ r ∈ rows, ∀ c ∈ r,
      (∀ ch ∈ c, ¬(ch = '|') ∧ isBreakChar ch = false) ∧ strip c = c)
    (hblank : ∃ r ∈ rows, ∃ c ∈ r, c ≠ [])
    (hsep : ∀ r ∈ rows, isSeparatorLine (serialize_row r) = false) :
    extract_markdown_tables (serialize_table rows) = [rows] := by
  simp only [extract_markdown_tables, serialize_table]
  have hlines : splitlines (joinSep ['\n'] (rows.map serialize_row)) =
      rows.map serialize_row := by
    apply splitlines_joinSep
    · simpa using hne
    · intro l hl
      obtain ⟨r, hr, rfl⟩ := List.mem_map.mp hl
      exact ⟨serialize_row_ne_nil r,
        serialize_row_no_break r (fun c hc ch hch => ((hcell r hr c hc).1 ch hch).2)⟩
  rw [hlines]
  have hrstrip : (rows.map serialize_row).map rstrip = rows.map serialize_row := by
    rw [List.map_map]
    exact List.map_congr_left (fun r hr => by
      simp only [Function.comp_apply]
      exact rstrip_serialize_row r)
  rw [hrstrip]
  rw [emtLoop_all_qualifying _ [] [] (fun ln hln => by
    obtain ⟨r, hr, rfl⟩ := List.mem_map.mp hln
    exact qualifies_serialize_row r (hrowne r hr)
      (fun c hc ch hch => ((hcell r hr c hc).1 ch hch).1))]
  simp only [List.nil_append]
  have hie : (rows.map serialize_row).isEmpty = false := by
    cases rows with
    | nil => exact absurd rfl hne
    | cons r rs => rfl
  rw [hie, if_neg Bool.false_ne_true]
  rw [parse_md_table_block_serialize rows hrowne
    (fun r hr c hc ch hch => ((hcell r hr c hc).1 ch hch).1)
    (fun r hr c hc => (hcell r hr c hc).2) hsep]
  have h1 : rows.isEmpty = false := by
    cases rows with
    | nil => exact absurd rfl hne
    | cons r rs => rfl
  have h2 : rows.any rowNonBlank = true := by
    obtain ⟨r, hr, c, hc, hcne⟩ := hblank
    simp only [List.any_eq_true]
    refine ⟨r, hr, ?_⟩
    simp only [rowNonBlank, List.any_eq_true]
    refine ⟨c, hc, ?_⟩
    rw [(hcell r hr c hc).2]
    cases c with
    | nil => exact absurd rfl hcne
    | cons ch cs => rfl
  simp [List.filter_cons, h1, h2]

/-- C7 witness: the amended round-trip at a concrete one-row table. -/
theorem claim_C7_witness :
    extract_markdown_tables (serialize_table [["a".toList, "b".toList]]) =
      [[["a".toList, "b".toList]]] :=
  claim_C7_amended [["a".toList, "b".toList]] (by decide) (by decide) (by decide)
    (by decide) (by decide) (by decide)

end Claims
